import Mathlib

/-!
Verification development for the Polifolio portfolio-tracking backend.

The definitions below are a shallow embedding of the Python sources under
`backend/fastapi_app` (services `stock_service.py`, `portfolio_service.py`,
`scheduler_service.py`, route `api/routes.py`).  Monetary amounts, prices and
quantities are modelled as exact rationals (`ℚ`): the Python code computes with
IEEE doubles, which this embedding idealises to exact arithmetic.  Database
tables are modelled as Lean lists of record rows, and the external market-data
provider (yfinance) as an explicit function argument returning `Option`/lists,
`none`/`[]` standing for the provider failures that the code logs and swallows.
-/

namespace Polifolio

/-- A row of the `stocks` table (`models/user.py`, class `Stock`): one holding
of one user.  The `quantity` column is declared `Integer` in the source and
`purchase_price` is a `Float`; both are modelled as `ℚ`, which contains every
value the columns can take.  The `id`, `user_id` and `purchase_date` columns
play no role in the claims and are omitted. -/
structure Stock where
  symbol : String
  quantity : ℚ
  purchase_price : ℚ
deriving DecidableEq, Repr

/-- A row of the `stock_prices` table (`models/user.py`, class `StockPrice`):
the Price Store.  Timestamps are modelled as naturals (only their order is ever
used). -/
structure PriceRow where
  symbol : String
  price : ℚ
  timestamp : ℕ
deriving DecidableEq, Repr

/-- The `PortfolioItem` response schema (`schemas/portfolio.py`). -/
structure PortfolioItem where
  symbol : String
  quantity : ℚ
  purchase_price : ℚ
  current_price : ℚ
  current_value : ℚ
  gain_loss : ℚ
deriving DecidableEq, Repr

/-- Python's built-in `round(x, d)` on the exact rational `x`: round to `d`
decimal places with ties going to the even scaled integer (banker's rounding),
as `round` does on floats whose scaled value is exactly representable. -/
def pyRound (d : ℕ) (x : ℚ) : ℚ :=
  let scaled : ℚ := x * (10 : ℚ) ^ d
  let f : ℤ := ⌊scaled⌋
  let frac : ℚ := scaled - (f : ℚ)
  let n : ℤ :=
    if frac < 1 / 2 then f
    else if 1 / 2 < frac then f + 1
    else if f % 2 = 0 then f else f + 1
  (n : ℚ) / (10 : ℚ) ^ d

/-- All rows of the Price Store for one symbol. -/
def rowsFor (store : List PriceRow) (sym : String) : List PriceRow :=
  store.filter (fun r => r.symbol = sym)

/-- The latest-price query of `api/routes.py::get_user_portfolio`
(`db.query(StockPrice).filter(symbol).order_by(timestamp.desc()).first()`):
the row for `sym` with the greatest timestamp, or `none` if the symbol has no
row.  A left fold keeps the earlier row on equal timestamps, matching a stable
descending sort. -/
def latest_price (store : List PriceRow) (sym : String) : Option PriceRow :=
  (rowsFor store sym).foldl
    (fun acc r =>
      match acc with
      | none => some r
      | some b => if b.timestamp < r.timestamp then some r else some b)
    none

/-- The Price Store invariant (§3 of the spec: at most one authoritative latest
snapshot per symbol): each symbol has at most one row. -/
def storeInv (store : List PriceRow) : Prop :=
  ∀ sym, (rowsFor store sym).length ≤ 1

instance (store : List PriceRow) : Decidable (storeInv store) := by
  unfold storeInv
  have : (∀ r ∈ store, (rowsFor store r.symbol).length ≤ 1) ↔
      (∀ sym, (rowsFor store sym).length ≤ 1) := by
    constructor
    · intro h sym
      cases hrows : rowsFor store sym with
      | nil => simp
      | cons r rest =>
        have hr : r ∈ store ∧ r.symbol = sym := by
          have : r ∈ rowsFor store sym := by rw [hrows]; exact List.mem_cons_self r rest
          simpa [rowsFor, List.mem_filter] using this
        have := h r hr.1
        rw [hr.2] at this
        rw [hrows] at this
        exact this
    · intro h r _
      exact h r.symbol
  exact decidable_of_iff _ this

/-- The body of `api/routes.py::get_user_portfolio` (lines 129–155), the
portfolio endpoint mounted by `main.py`: iterate the user's holdings, look up
the latest stored price per symbol, and for priced holdings emit a
`PortfolioItem` with `current_value = round(quantity * price, 3)` and
`gain_loss = round(current_value - quantity * purchase_price, 3)`; holdings
without a price row are skipped (the code logs a warning).  The function is
total: a missing price never raises. -/
def get_user_portfolio (store : List PriceRow) : List Stock → List PortfolioItem
  | [] => []
  | st :: rest =>
    match latest_price store st.symbol with
    | some row =>
        let current_value := pyRound 3 (st.quantity * row.price)
        let gain_loss := pyRound 3 (current_value - st.quantity * st.purchase_price)
        ⟨st.symbol, st.quantity, st.purchase_price, row.price, current_value, gain_loss⟩
          :: get_user_portfolio store rest
    | none => get_user_portfolio store rest

/-- `portfolio_service.py::build_portfolio_response` (lines 62–83), the helper
of the batch-lookup revision of the endpoint.  `price_data` is the mapping
returned by the batch lookup.  Note the source guard is `if latest_price:` on a
float, so a price of exactly `0` is treated like a missing price and the
holding is skipped — this differs from the mounted route above, whose guard
tests an ORM row object for `None`. -/
def build_portfolio_response (stocks : List Stock) (price_data : List (String × ℚ)) :
    List PortfolioItem :=
  match stocks with
  | [] => []
  | st :: rest =>
    match price_data.lookup st.symbol with
    | some p =>
        if p = 0 then build_portfolio_response rest price_data
        else
          let current_value := pyRound 3 (st.quantity * p)
          let gain_loss := pyRound 3 (current_value - st.quantity * st.purchase_price)
          ⟨st.symbol, st.quantity, st.purchase_price, p, current_value, gain_loss⟩
            :: build_portfolio_response rest price_data
    | none => build_portfolio_response rest price_data

/-- Modelled from the spec: `get_latest_stock_prices` — the batch Price-Store
lookup `latest_prices(symbols) -> mapping symbol→decimal` of spec §4.2.  The
function is imported by `portfolio_service.py` from `stock_service.py`, but its
definition is absent from this snapshot of the source, so it is modelled from
the spec's words: one query-shaped pass producing, for each distinct requested
symbol that has a stored price, exactly one entry mapping it to its latest
price; symbols without a stored price are absent from the mapping. -/
def get_latest_stock_prices (symbols : List String) (store : List PriceRow) :
    List (String × ℚ) :=
  symbols.dedup.filterMap (fun s => (latest_price store s).map (fun r => (s, r.price)))

/-! ## Portfolio history job (`stock_service.py::update_portfolio_history`) -/

/-- A row of the `portfolio_history` table (`models/user.py`,
class `PortfolioHistory`). -/
structure HistoryRecord where
  user_id : ℕ
  portfolio_value : ℚ
  volatility : ℚ
  profit : ℚ
  investment_value : ℚ
  asset_value : ℚ
  dividends : ℚ
deriving DecidableEq, Repr

/-- One element of the per-user `portfolio_items` outer-join result
(`select(Stock, StockPrice).outerjoin(...)`): the holding row paired with the
matched price row's price, or `none` when the symbol has no price row. -/
abbrev JoinItem := Stock × Option ℚ

/-- `portfolio_value = sum(stock.quantity * price.price for stock, price in
portfolio_items if price)`: holdings without a price row contribute nothing. -/
def portfolio_value_of (items : List JoinItem) : ℚ :=
  (items.filterMap (fun it => it.2.map (fun p => it.1.quantity * p))).sum

/-- `investment_value = sum(stock.quantity * stock.purchase_price for stock, _
in portfolio_items)`: every holding contributes, price row or not. -/
def investment_value_of (items : List JoinItem) : ℚ :=
  (items.map (fun it => it.1.quantity * it.1.purchase_price)).sum

/-- Construction of the `PortfolioHistory` entry persisted per user by
`update_portfolio_history`: every aggregate field is rounded to 2 decimal
places at computation, `profit` is rounded after the unrounded subtraction, and
`asset_value` duplicates `portfolio_value`.  The `volatility` and `dividends`
aggregates are computed from external market data (they are modelled separately
by `calculate_portfolio_volatility`); here they enter as already-computed
rational inputs. -/
def mkHistoryEntry (uid : ℕ) (items : List JoinItem) (volatility dividends : ℚ) :
    HistoryRecord where
  user_id := uid
  portfolio_value := pyRound 2 (portfolio_value_of items)
  volatility := pyRound 2 volatility
  profit := pyRound 2 (portfolio_value_of items - investment_value_of items)
  investment_value := pyRound 2 (investment_value_of items)
  asset_value := pyRound 2 (portfolio_value_of items)
  dividends := pyRound 2 dividends

/-- The data the history job sees for one user: the id, the outer-join rows of
the user's holdings against the Price Store, and the volatility/dividend
aggregates computed for the user. -/
structure UserSnapshot where
  user_id : ℕ
  items : List JoinItem
  volatility : ℚ
  dividends : ℚ

/-- The per-run loop of `update_portfolio_history`: for each user in turn, a
user whose join result is empty (zero holdings) is skipped with a log line and
produces no record; every other user appends one `PortfolioHistory` entry.
The records of one run, in user order. -/
def update_portfolio_history : List UserSnapshot → List HistoryRecord
  | [] => []
  | u :: rest =>
    if u.items = [] then update_portfolio_history rest
    else mkHistoryEntry u.user_id u.items u.volatility u.dividends
        :: update_portfolio_history rest

/-! ## Stock price refresh job (`stock_service.py`, lines 31–104) -/

/-- The mutable state of one run of the refresh job: the Price Store, the
service's `updated_symbols` set, and the trace of symbols for which the
market-data gateway fetch (`fetch_stock_price`) has been invoked. -/
structure RunState where
  store : List PriceRow
  updated : List String
  fetched : List String

/-- `StockService._save_stock_price` (lines 64–82): look up the symbol's row
with `scalar_one_or_none`; update it in place if there is exactly one, insert a
new row if there is none.  With more than one row `scalar_one_or_none` raises,
the `except` branch logs and rolls back, and the store is unchanged. -/
def save_stock_price (store : List PriceRow) (sym : String) (p : ℚ) (t : ℕ) :
    List PriceRow :=
  match store.filter (fun r => r.symbol = sym) with
  | [] => store ++ [⟨sym, p, t⟩]
  | [_] => store.map (fun r => if r.symbol = sym then ⟨r.symbol, p, t⟩ else r)
  | _ => store

/-- `StockService.update_stock_price` (lines 36–47): skip the symbol if it is
already in `updated_symbols`, otherwise invoke the gateway fetch; on a fetched
price save it and record the symbol in `updated_symbols`; on a failed fetch
(`fetch_stock_price` returns `None` after logging an error or empty data) do
nothing further.  The gateway is the function `g`; `t` is the save
timestamp (`datetime.utcnow()`). -/
def update_stock_price (g : String → Option ℚ) (t : ℕ) (s : RunState) (sym : String) :
    RunState :=
  if sym ∈ s.updated then s
  else
    match g sym with
    | some p =>
        { store := save_stock_price s.store sym p t
          updated := s.updated ++ [sym]
          fetched := s.fetched ++ [sym] }
    | none => { s with fetched := s.fetched ++ [sym] }

/-- One run of `update_stock_prices` (lines 85–104): `select(Stock.symbol)
.distinct()` collects the distinct held symbols, and `asyncio.gather` runs
`update_stock_price` for each; the gather is linearised as a left fold, which
is faithful here because the deduplicated symbols are pairwise distinct, so the
coroutines touch disjoint rows and the `updated_symbols` check never interacts
across them.  `symbols` is the full multiset of holding rows' symbols. -/
def update_stock_prices (g : String → Option ℚ) (t : ℕ) (symbols : List String)
    (store : List PriceRow) : RunState :=
  symbols.dedup.foldl (update_stock_price g t) ⟨store, [], []⟩

/-! ## Volatility (`stock_service.py::calculate_portfolio_volatility`,
lines 107–142; the copy in `portfolio_service.py` lines 193–228 is
identical) -/

/-- Mean of a list of rationals (`l.sum / 0 = 0` on the empty list, which the
callers below never rely on). -/
def listMean (l : List ℚ) : ℚ :=
  l.sum / (l.length : ℚ)

/-- Sample variance with one delta degree of freedom, as pandas
`Series.var()`/`Series.std()` use (`ddof=1`).  Only ever applied under a
`2 ≤ length` guard. -/
def sampleVar (l : List ℚ) : ℚ :=
  ((l.map (fun x => (x - listMean l) ^ 2)).sum) / ((l.length : ℚ) - 1)

/-- pandas `Series.std()` on the return series: the square root of the sample
variance.  On fewer than two observations pandas yields NaN; exact arithmetic
has no NaN, so the embedding idealises that case to `0` (see the claim-C3
theorem: the affected terms are multiplied into the sum, so this choice is
observationally the exclusion the spec describes). -/
noncomputable def sampleStd (l : List ℚ) : ℝ :=
  if l.length < 2 then 0 else Real.sqrt ((sampleVar l : ℚ) : ℝ)

/-- pandas `Series.pct_change().dropna()` on the close-price series: the list
of daily percentage returns `(next - prev) / prev` (the leading NaN dropped).
A zero close would make the float code produce ±inf/NaN; `ℚ` division by zero
yields `0` instead — market close prices are positive, and no claim depends on
this case. -/
def pctChange : List ℚ → List ℚ
  | [] => []
  | [_] => []
  | x :: y :: rest => (y - x) / x :: pctChange (y :: rest)

/-- `returns.std() * (252 ** 0.5)`: the annualised volatility of one symbol's
close series. -/
noncomputable def annualVol (closes : List ℚ) : ℝ :=
  sampleStd (pctChange closes) * Real.sqrt 252

/-- `total_value = sum(item[0].quantity * item[1].price for item in
portfolio_items if item[1] is not None)`. -/
def totalPricedValue (items : List JoinItem) : ℚ :=
  (items.filterMap (fun it => it.2.map (fun p => it.1.quantity * p))).sum

/-- The `weighted_volatilities` list built by the loop of
`calculate_portfolio_volatility`: skip holdings whose outer-join price is
`None`; fetch the symbol's 1-year history from the gateway `g` (a fetch
exception and an empty frame both leave the list untouched, modelled jointly
by `g` returning `[]`); otherwise append
`weight * volatility = (quantity * price) / total * (std(returns) * sqrt 252)`. -/
noncomputable def weightedVols (g : String → List ℚ) (total : ℚ) :
    List JoinItem → List ℝ
  | [] => []
  | (st, pr) :: rest =>
    match pr with
    | none => weightedVols g total rest
    | some p =>
      if g st.symbol = [] then weightedVols g total rest
      else ((st.quantity * p / total : ℚ) : ℝ) * annualVol (g st.symbol)
          :: weightedVols g total rest

/-- `calculate_portfolio_volatility` (lines 107–142): return `0.0` for an
empty item list; compute `total_value` over the priced items and return `0.0`
when it is zero; otherwise sum the weighted volatilities (the source returns
`0.0` for an empty weighted list, which coincides with the empty sum). -/
noncomputable def calculate_portfolio_volatility (g : String → List ℚ)
    (items : List JoinItem) : ℝ :=
  if items = [] then 0
  else
    let total := totalPricedValue items
    if total = 0 then 0
    else
      let w := weightedVols g total items
      if w = [] then 0 else w.sum

/-! ## Scheduler configuration (`scheduler_service.py`, lines 14–23) -/

/-- `MISFIRE_GRACE_TIME_SECONDS` as the source computes it from the two
configured intervals: the expression adds `STOCK_PRICES_INTERVAL_UPDATES_SECONDS`
to itself and floor-halves it, so the history interval never enters (the sibling
revision in `src/shared/config.py` averages the two distinct intervals). -/
def MISFIRE_GRACE_TIME_SECONDS (stockSecs historySecs : ℕ) : ℕ :=
  (stockSecs + stockSecs) / 2

/-- The derivation the spec states for the misfire grace period: the average of
the price-refresh interval and the history-update interval. -/
def specMisfireGraceTime (stockSecs historySecs : ℕ) : ℕ :=
  (stockSecs + historySecs) / 2

/-- The volatility contributions exactly as claim C3 words them: one term per
holding that has both a price and a non-empty daily-return series, equal to
`weight * (std of daily returns * sqrt 252)` with
`weight = (quantity * price) / total`; holdings lacking a price or whose
return series is empty produce no term at all. -/
noncomputable def claimVolTerms (g : String → List ℚ) (total : ℚ) (items : List JoinItem) :
    List ℝ :=
  items.filterMap (fun it =>
    match it.2 with
    | none => none
    | some p =>
      if pctChange (g it.1.symbol) = [] then none
      else some (((it.1.quantity * p / total : ℚ) : ℝ)
          * (sampleStd (pctChange (g it.1.symbol)) * Real.sqrt 252)))

/-! ## Helper lemmas -/

theorem pyRound_zero (d : ℕ) : pyRound d 0 = 0 := by
  unfold pyRound
  norm_num

theorem get_user_portfolio_cons (store : List PriceRow) (a : Stock) (rest : List Stock) :
    get_user_portfolio store (a :: rest) =
      match latest_price store a.symbol with
      | some row =>
          (⟨a.symbol, a.quantity, a.purchase_price, row.price,
            pyRound 3 (a.quantity * row.price),
            pyRound 3 (pyRound 3 (a.quantity * row.price)
              - a.quantity * a.purchase_price)⟩ : PortfolioItem)
            :: get_user_portfolio store rest
      | none => get_user_portfolio store rest := rfl

theorem mem_get_user_portfolio_of_price (store : List PriceRow) (stocks : List Stock)
    (st : Stock) (row : PriceRow) (hmem : st ∈ stocks)
    (hrow : latest_price store st.symbol = some row) :
    (⟨st.symbol, st.quantity, st.purchase_price, row.price,
      pyRound 3 (st.quantity * row.price),
      pyRound 3 (pyRound 3 (st.quantity * row.price)
        - st.quantity * st.purchase_price)⟩ : PortfolioItem)
      ∈ get_user_portfolio store stocks := by
  induction stocks with
  | nil => cases hmem
  | cons a rest ih =>
    rw [get_user_portfolio_cons]
    rcases List.mem_cons.mp hmem with heq | hmem'
    · subst heq
      rw [hrow]
      exact List.mem_cons_self _ _
    · cases hlat : latest_price store a.symbol with
      | some r2 => exact List.mem_cons_of_mem _ (ih hmem')
      | none => exact ih hmem'

theorem symbol_of_mem_get_user_portfolio (store : List PriceRow) (stocks : List Stock)
    (it : PortfolioItem) (hit : it ∈ get_user_portfolio store stocks) :
    ∃ row, latest_price store it.symbol = some row := by
  induction stocks with
  | nil => cases hit
  | cons a rest ih =>
    rw [get_user_portfolio_cons] at hit
    cases hlat : latest_price store a.symbol with
    | some r2 =>
      rw [hlat] at hit
      rcases List.mem_cons.mp hit with heq | hmem'
      · subst heq
        exact ⟨r2, hlat⟩
      · exact ih hmem'
    | none =>
      rw [hlat] at hit
      exact ih hit

/-! ## Claim theorems -/

/-- Claim C1: for every holding whose symbol has a latest price `P` in the
Price Store, `get_user_portfolio` returns an item for it carrying
`current_value = round(quantity * P, 3)` and
`gain_loss = round(current_value - quantity * purchase_price, 3)`, while every
holding whose symbol has no latest price produces no item at all (and, being a
total function, the lookup's absence never raises). -/
theorem getUserPortfolio_valuation (store : List PriceRow) (stocks : List Stock)
    (st : Stock) (hmem : st ∈ stocks) :
    (∀ row, latest_price store st.symbol = some row →
      (⟨st.symbol, st.quantity, st.purchase_price, row.price,
        pyRound 3 (st.quantity * row.price),
        pyRound 3 (pyRound 3 (st.quantity * row.price)
          - st.quantity * st.purchase_price)⟩ : PortfolioItem)
        ∈ get_user_portfolio store stocks) ∧
    (latest_price store st.symbol = none →
      ∀ it ∈ get_user_portfolio store stocks, it.symbol ≠ st.symbol) := by
  constructor
  · intro row hrow
    exact mem_get_user_portfolio_of_price store stocks st row hmem hrow
  · intro hnone it hit heq
    rcases symbol_of_mem_get_user_portfolio store stocks it hit with ⟨row, hrow⟩
    rw [heq, hnone] at hrow
    cases hrow

/-- Witness for claim C1 at a concrete store and holding list. -/
theorem getUserPortfolio_valuation_witness :
    (⟨"AAPL", 10, 100, 150, 1500, 500⟩ : PortfolioItem)
      ∈ get_user_portfolio [⟨"AAPL", 150, 1⟩] [⟨"AAPL", 10, 100⟩] ∧
    (∀ it ∈ get_user_portfolio [⟨"AAPL", 150, 1⟩] [⟨"AAPL", 10, 100⟩, ⟨"MSFT", 2, 3⟩],
      it.symbol ≠ "MSFT") := by
  constructor
  · have h := (getUserPortfolio_valuation [⟨"AAPL", 150, 1⟩] [⟨"AAPL", 10, 100⟩]
      ⟨"AAPL", 10, 100⟩ (by decide)).1 ⟨"AAPL", 150, 1⟩ (by decide)
    have hval : pyRound 3 ((10 : ℚ) * 150) = 1500 := by norm_num [pyRound]
    have hgl : pyRound 3 ((1500 : ℚ) - (10 : ℚ) * 100) = 500 := by norm_num [pyRound]
    rw [hval, hgl] at h
    exact h
  · exact (getUserPortfolio_valuation [⟨"AAPL", 150, 1⟩]
      [⟨"AAPL", 10, 100⟩, ⟨"MSFT", 2, 3⟩] ⟨"MSFT", 2, 3⟩ (by decide)).2 (by decide)

/-- Rewriting the code's priced-holdings sum as the claim's filtered sum. -/
theorem portfolio_value_of_eq_filter_sum (items : List JoinItem) :
    portfolio_value_of items =
      ((items.filter (fun it => it.2.isSome)).map
        (fun it => it.1.quantity * it.2.getD 0)).sum := by
  induction items with
  | nil => rfl
  | cons it rest ih =>
    obtain ⟨st, pr⟩ := it
    cases pr with
    | none => simpa [portfolio_value_of, List.filterMap_cons] using ih
    | some p =>
      simp [portfolio_value_of, List.filterMap_cons, List.filter_cons] at ih ⊢
      exact ih

/-- A user appearing in the run with a non-empty join result contributes its
history entry to the run's output. -/
theorem mkHistoryEntry_mem_run (users : List UserSnapshot) (u : UserSnapshot)
    (hmem : u ∈ users) (hne : u.items ≠ []) :
    mkHistoryEntry u.user_id u.items u.volatility u.dividends
      ∈ update_portfolio_history users := by
  induction users with
  | nil => cases hmem
  | cons a rest ih =>
    rcases List.mem_cons.mp hmem with heq | hmem'
    · subst heq
      rw [update_portfolio_history, if_neg hne]
      exact List.mem_cons_self _ _
    · by_cases ha : a.items = []
      · rw [update_portfolio_history, if_pos ha]
        exact ih hmem'
      · rw [update_portfolio_history, if_neg ha]
        exact List.mem_cons_of_mem _ (ih hmem')

/-- Holdings whose outer-join price is missing contribute nothing to the
unrounded portfolio value. -/
theorem portfolio_value_of_all_none (items : List JoinItem)
    (h : ∀ it ∈ items, it.2 = none) : portfolio_value_of items = 0 := by
  induction items with
  | nil => rfl
  | cons it rest ih =>
    have hhd : it.2 = none := h it (List.mem_cons_self _ _)
    have htl : ∀ x ∈ rest, x.2 = none := fun x hx => h x (List.mem_cons_of_mem _ hx)
    simp [portfolio_value_of, List.filterMap_cons, hhd]
    rw [← portfolio_value_of, ih htl]

/-- Claim C2: every user the history job processes gets a persisted record
whose `portfolio_value` is the 2-decimal rounding of the quantity-times-price
sum over exactly the priced holdings, whose `investment_value` is the 2-decimal
rounding of the quantity-times-purchase-price sum over all holdings, whose
`profit` rounds the unrounded difference of the two sums, and whose
`asset_value` duplicates `portfolio_value`. -/
theorem historyRecord_aggregates (users : List UserSnapshot) (u : UserSnapshot)
    (hmem : u ∈ users) (hne : u.items ≠ []) :
    mkHistoryEntry u.user_id u.items u.volatility u.dividends
      ∈ update_portfolio_history users ∧
    (mkHistoryEntry u.user_id u.items u.volatility u.dividends).portfolio_value =
      pyRound 2 (((u.items.filter (fun it => it.2.isSome)).map
        (fun it => it.1.quantity * it.2.getD 0)).sum) ∧
    (mkHistoryEntry u.user_id u.items u.volatility u.dividends).investment_value =
      pyRound 2 ((u.items.map (fun it => it.1.quantity * it.1.purchase_price)).sum) ∧
    (mkHistoryEntry u.user_id u.items u.volatility u.dividends).profit =
      pyRound 2 (((u.items.filter (fun it => it.2.isSome)).map
          (fun it => it.1.quantity * it.2.getD 0)).sum
        - (u.items.map (fun it => it.1.quantity * it.1.purchase_price)).sum) ∧
    (mkHistoryEntry u.user_id u.items u.volatility u.dividends).asset_value =
      (mkHistoryEntry u.user_id u.items u.volatility u.dividends).portfolio_value := by
  refine ⟨mkHistoryEntry_mem_run users u hmem hne, ?_, rfl, ?_, rfl⟩
  · rw [mkHistoryEntry, portfolio_value_of_eq_filter_sum]
  · rw [mkHistoryEntry, portfolio_value_of_eq_filter_sum]
    rfl

/-- Witness for claim C2 at a concrete user with one priced and one unpriced
holding. -/
theorem historyRecord_aggregates_witness :
    mkHistoryEntry 1 [(⟨"AAPL", 10, 100⟩, some 150), (⟨"MSFT", 2, 3⟩, none)] 0 0
      ∈ update_portfolio_history
        [⟨1, [(⟨"AAPL", 10, 100⟩, some 150), (⟨"MSFT", 2, 3⟩, none)], 0, 0⟩] ∧
    (mkHistoryEntry 1 [(⟨"AAPL", 10, 100⟩, some 150), (⟨"MSFT", 2, 3⟩, none)] 0 0).profit
      = pyRound 2 ((1500 : ℚ) - 1006) := by
  have h := historyRecord_aggregates
    [⟨1, [(⟨"AAPL", 10, 100⟩, some 150), (⟨"MSFT", 2, 3⟩, none)], 0, 0⟩]
    ⟨1, [(⟨"AAPL", 10, 100⟩, some 150), (⟨"MSFT", 2, 3⟩, none)], 0, 0⟩
    (List.mem_singleton.mpr rfl) (by simp)
  refine ⟨h.1, ?_⟩
  rw [h.2.2.2.1]
  norm_num

/-- Claim C6: in every run of the history job, users with zero holdings are
skipped (the run's output is that of the run restricted to users with
holdings), while a user whose holdings all lack a price snapshot still gets a
record with `portfolio_value = 0` and `investment_value` the rounded
quantity-times-purchase-price sum. -/
theorem historyJob_skip_and_zero_price (users : List UserSnapshot) :
    update_portfolio_history users =
      update_portfolio_history (users.filter (fun u => !u.items.isEmpty)) ∧
    ∀ u ∈ users, u.items ≠ [] → (∀ it ∈ u.items, it.2 = none) →
      mkHistoryEntry u.user_id u.items u.volatility u.dividends
        ∈ update_portfolio_history users ∧
      (mkHistoryEntry u.user_id u.items u.volatility u.dividends).portfolio_value = 0 ∧
      (mkHistoryEntry u.user_id u.items u.volatility u.dividends).investment_value =
        pyRound 2 ((u.items.map (fun it => it.1.quantity * it.1.purchase_price)).sum) := by
  constructor
  · induction users with
    | nil => rfl
    | cons a rest ih =>
      by_cases ha : a.items = []
      · rw [update_portfolio_history, if_pos ha, List.filter_cons]
        simp [ha, ih]
      · rw [update_portfolio_history, if_neg ha, List.filter_cons]
        have : a.items.isEmpty = false := by
          simpa [List.isEmpty_iff] using ha
        simp only [this, Bool.not_false, if_pos]
        rw [update_portfolio_history, if_neg ha, ih]
  · intro u hmem hne hnone
    refine ⟨mkHistoryEntry_mem_run users u hmem hne, ?_, rfl⟩
    show pyRound 2 (portfolio_value_of u.items) = 0
    rw [portfolio_value_of_all_none u.items hnone, pyRound_zero]

/-- Witness for claim C6: a zero-holdings user yields no record while a
priced-less user yields a record with zero portfolio value. -/
theorem historyJob_skip_and_zero_price_witness :
    update_portfolio_history [⟨7, [], 0, 0⟩, ⟨8, [(⟨"TSLA", 3, 10⟩, none)], 1, 2⟩] =
      update_portfolio_history
        (([⟨7, [], 0, 0⟩, ⟨8, [(⟨"TSLA", 3, 10⟩, none)], 1, 2⟩] : List UserSnapshot).filter
          (fun u => !u.items.isEmpty)) ∧
    (mkHistoryEntry 8 [(⟨"TSLA", 3, 10⟩, none)] 1 2).portfolio_value = 0 ∧
    (mkHistoryEntry 8 [(⟨"TSLA", 3, 10⟩, none)] 1 2).investment_value = 30 := by
  have h := historyJob_skip_and_zero_price
    [⟨7, [], 0, 0⟩, ⟨8, [(⟨"TSLA", 3, 10⟩, none)], 1, 2⟩]
  have h8 := h.2 ⟨8, [(⟨"TSLA", 3, 10⟩, none)], 1, 2⟩
    (List.mem_cons_of_mem _ (List.mem_singleton.mpr rfl)) (by simp) (by simp)
  refine ⟨h.1, h8.2.1, ?_⟩
  rw [h8.2.2]
  norm_num [pyRound]

/-- The keys of the batch lookup are the requested distinct symbols that have
a stored price, in order. -/
theorem batch_keys_eq_filter (l : List String) (store : List PriceRow) :
    ((l.filterMap
        (fun s => (latest_price store s).map (fun r => (s, r.price)))).map Prod.fst)
      = l.filter (fun s => (latest_price store s).isSome) := by
  induction l with
  | nil => rfl
  | cons a rest ih =>
    cases hlat : latest_price store a with
    | some r => simp [List.filterMap_cons, List.filter_cons, hlat, ih]
    | none => simp [List.filterMap_cons, List.filter_cons, hlat, ih]

/-- Claim C9: the batch latest-price lookup returns one entry per requested
symbol that has a stored price — its key list has no duplicates, and an entry
`(s, p)` exists exactly when `s` was requested and the Price Store holds a
latest row for `s` with price `p`; symbols without a stored price are simply
absent from the mapping.  The lookup is a single pass of the deduplicated
symbol set against the store (`get_latest_stock_prices` is one query-shaped
operation by construction). -/
theorem batchLookup_one_row_per_priced_symbol (symbols : List String)
    (store : List PriceRow) :
    ((get_latest_stock_prices symbols store).map Prod.fst).Nodup ∧
    (∀ s p, (s, p) ∈ get_latest_stock_prices symbols store ↔
      (s ∈ symbols ∧ ∃ r, latest_price store s = some r ∧ r.price = p)) := by
  constructor
  · rw [get_latest_stock_prices, batch_keys_eq_filter]
    exact (List.nodup_dedup symbols).filter _
  · intro s p
    rw [get_latest_stock_prices]
    simp only [List.mem_filterMap, Option.map_eq_some', Prod.mk.injEq]
    constructor
    · rintro ⟨a, ha, r, hr, rfl, rfl⟩
      exact ⟨(List.mem_dedup.mp ha), r, hr, rfl⟩
    · rintro ⟨hs, r, hr, rfl⟩
      exact ⟨s, List.mem_dedup.mpr hs, r, hr, rfl, rfl⟩

/-- Witness for claim C9: the duplicate request for AAPL yields its single
entry, and the unpriced GOOG is absent. -/
theorem batchLookup_one_row_per_priced_symbol_witness :
    ("AAPL", (150 : ℚ)) ∈ get_latest_stock_prices ["AAPL", "GOOG", "AAPL"]
      [⟨"AAPL", 150, 5⟩] ∧
    ¬ ∃ p, ("GOOG", p) ∈ get_latest_stock_prices ["AAPL", "GOOG", "AAPL"]
      [⟨"AAPL", 150, 5⟩] := by
  have h := batchLookup_one_row_per_priced_symbol ["AAPL", "GOOG", "AAPL"]
    [⟨"AAPL", 150, 5⟩]
  constructor
  · exact (h.2 "AAPL" 150).mpr ⟨by decide, ⟨"AAPL", 150, 5⟩, by decide, rfl⟩
  · rintro ⟨p, hp⟩
    rcases (h.2 "GOOG" p).mp hp with ⟨-, r, hr, -⟩
    have : latest_price [(⟨"AAPL", 150, 5⟩ : PriceRow)] "GOOG" = none := by decide
    rw [this] at hr
    cases hr

/-- Updating the rows of `sym` in place rewrites each of them to the fresh
row. -/
theorem rowsFor_map_update (store : List PriceRow) (sym : String) (p : ℚ) (t : ℕ) :
    rowsFor (store.map (fun r => if r.symbol = sym then ⟨r.symbol, p, t⟩ else r)) sym
      = (rowsFor store sym).map (fun _ => (⟨sym, p, t⟩ : PriceRow)) := by
  induction store with
  | nil => rfl
  | cons r rest ih =>
    by_cases hr : r.symbol = sym
    · simp [rowsFor, List.filter_cons, hr] at ih ⊢
      exact ih
    · simp [rowsFor, List.filter_cons, hr] at ih ⊢
      exact ih

/-- Updating the rows of `sym` leaves every other symbol's rows untouched. -/
theorem rowsFor_map_update_other (store : List PriceRow) (sym s' : String) (p : ℚ)
    (t : ℕ) (hne : s' ≠ sym) :
    rowsFor (store.map (fun r => if r.symbol = sym then ⟨r.symbol, p, t⟩ else r)) s'
      = rowsFor store s' := by
  induction store with
  | nil => rfl
  | cons r rest ih =>
    by_cases hr : r.symbol = sym
    · simp [rowsFor, List.filter_cons, hr, Ne.symm hne] at ih ⊢
      exact ih
    · by_cases hs : r.symbol = s'
      · simp [rowsFor, List.filter_cons, hr, hs, hne] at ih ⊢
        exact ih
      · simp [rowsFor, List.filter_cons, hr, hs] at ih ⊢
        exact ih

/-- On a store with at most one row for `sym`, the upsert leaves exactly the
freshly saved row for `sym`. -/
theorem rowsFor_save_self (store : List PriceRow) (sym : String) (p : ℚ) (t : ℕ)
    (h : (rowsFor store sym).length ≤ 1) :
    rowsFor (save_stock_price store sym p t) sym = [⟨sym, p, t⟩] := by
  rw [save_stock_price]
  cases hrows : store.filter (fun r => r.symbol = sym) with
  | nil =>
    show rowsFor (store ++ [⟨sym, p, t⟩]) sym = _
    rw [rowsFor, List.filter_append]
    rw [show store.filter (fun r => r.symbol = sym) = rowsFor store sym from rfl] at hrows ⊢
    rw [hrows]
    simp
  | cons r rest =>
    cases rest with
    | nil =>
      show rowsFor (store.map _) sym = _
      rw [rowsFor_map_update]
      rw [show store.filter (fun r => r.symbol = sym) = rowsFor store sym from rfl] at hrows
      rw [hrows]
      rfl
    | cons r2 rest2 =>
      rw [show store.filter (fun r => r.symbol = sym) = rowsFor store sym from rfl] at hrows
      rw [hrows] at h
      simp at h

/-- The upsert for `sym` never touches another symbol's rows. -/
theorem rowsFor_save_other (store : List PriceRow) (sym s' : String) (p : ℚ) (t : ℕ)
    (hne : s' ≠ sym) :
    rowsFor (save_stock_price store sym p t) s' = rowsFor store s' := by
  rw [save_stock_price]
  cases hrows : store.filter (fun r => r.symbol = sym) with
  | nil =>
    show rowsFor (store ++ [⟨sym, p, t⟩]) s' = _
    rw [rowsFor, List.filter_append]
    simp [rowsFor, hne.symm]
  | cons r rest =>
    cases rest with
    | nil => exact rowsFor_map_update_other store sym s' p t hne
    | cons r2 rest2 => rfl

/-- The upsert preserves the at-most-one-row-per-symbol store invariant. -/
theorem save_storeInv (store : List PriceRow) (sym : String) (p : ℚ) (t : ℕ)
    (hinv : storeInv store) : storeInv (save_stock_price store sym p t) := by
  intro s'
  by_cases hs : s' = sym
  · subst hs
    rw [rowsFor_save_self store s' p t (hinv s')]
    exact le_refl 1
  · rw [rowsFor_save_other store sym s' p t hs]
    exact hinv s'

/-- A per-symbol step for a different symbol leaves `sym`'s rows untouched. -/
theorem step_rows_of_ne (g : String → Option ℚ) (t : ℕ) (s : RunState)
    (x sym : String) (hne : sym ≠ x) :
    rowsFor (update_stock_price g t s x).store sym = rowsFor s.store sym := by
  rw [update_stock_price]
  by_cases hx : x ∈ s.updated
  · rw [if_pos hx]
  · rw [if_neg hx]
    cases hg : g x with
    | some p => exact rowsFor_save_other s.store x sym p t hne
    | none => rfl

/-- A per-symbol step whose gateway fetch fails leaves the store untouched. -/
theorem step_store_of_none (g : String → Option ℚ) (t : ℕ) (s : RunState)
    (x : String) (hg : g x = none) :
    (update_stock_price g t s x).store = s.store := by
  rw [update_stock_price]
  by_cases hx : x ∈ s.updated
  · rw [if_pos hx]
  · rw [if_neg hx, hg]

/-- The step's `updated_symbols` set grows by at most the processed symbol. -/
theorem step_updated_subset (g : String → Option ℚ) (t : ℕ) (s : RunState)
    (x sym : String) (hne : sym ≠ x) (hnm : sym ∉ s.updated) :
    sym ∉ (update_stock_price g t s x).updated := by
  rw [update_stock_price]
  by_cases hx : x ∈ s.updated
  · rw [if_pos hx]
    exact hnm
  · rw [if_neg hx]
    cases hg : g x with
    | some p =>
      simp only [List.mem_append, List.mem_singleton]
      rintro (h | h)
      · exact hnm h
      · exact hne h
    | none => exact hnm

/-- Frame rule for a whole fold: a symbol that fails to fetch, or that is not
in the processed list, keeps its Price-Store rows. -/
theorem fold_rows_unchanged (g : String → Option ℚ) (t : ℕ) (sym : String) :
    ∀ (ls : List String) (s : RunState), (g sym = none ∨ sym ∉ ls) →
      rowsFor ((ls.foldl (update_stock_price g t) s).store) sym = rowsFor s.store sym := by
  intro ls
  induction ls with
  | nil => intro s _; rfl
  | cons x rest ih =>
    intro s h
    rw [List.foldl_cons]
    have hrest : g sym = none ∨ sym ∉ rest := by
      rcases h with h | h
      · exact Or.inl h
      · exact Or.inr (fun hr => h (List.mem_cons_of_mem _ hr))
    rw [ih (update_stock_price g t s x) hrest]
    by_cases hx : sym = x
    · subst hx
      rcases h with h | h
      · rw [step_store_of_none g t s sym h]
      · exact absurd (List.mem_cons_self _ _) h
    · exact step_rows_of_ne g t s x sym hx

/-- After folding a duplicate-free symbol list containing `sym`, a successful
fetch for `sym` leaves exactly the freshly saved row, no matter how the other
symbols' fetches fared. -/
theorem fold_rows_success (g : String → Option ℚ) (t : ℕ) (sym : String) (p : ℚ)
    (hg : g sym = some p) :
    ∀ (ls : List String) (s : RunState), ls.Nodup → sym ∈ ls → sym ∉ s.updated →
      (rowsFor s.store sym).length ≤ 1 →
      rowsFor ((ls.foldl (update_stock_price g t) s).store) sym = [⟨sym, p, t⟩] := by
  intro ls
  induction ls with
  | nil => intro s _ hmem; cases hmem
  | cons x rest ih =>
    intro s hnd hmem hupd hlen
    rw [List.foldl_cons]
    by_cases hx : sym = x
    · subst hx
      have hstep : (update_stock_price g t s sym).store = save_stock_price s.store sym p t := by
        rw [update_stock_price, if_neg hupd, hg]
      have hnotrest : sym ∉ rest := (List.nodup_cons.mp hnd).1
      rw [fold_rows_unchanged g t sym rest _ (Or.inr hnotrest), hstep]
      exact rowsFor_save_self s.store sym p t hlen
    · have hmem' : sym ∈ rest := by
        rcases List.mem_cons.mp hmem with h | h
        · exact absurd h hx
        · exact h
      have hupd' := step_updated_subset g t s x sym hx hupd
      have hlen' : (rowsFor (update_stock_price g t s x).store sym).length ≤ 1 := by
        rw [step_rows_of_ne g t s x sym hx]
        exact hlen
      exact ih (update_stock_price g t s x) (List.nodup_cons.mp hnd).2 hmem' hupd' hlen'

/-- The fold preserves the store invariant. -/
theorem fold_storeInv (g : String → Option ℚ) (t : ℕ) :
    ∀ (ls : List String) (s : RunState), storeInv s.store →
      storeInv ((ls.foldl (update_stock_price g t) s).store) := by
  intro ls
  induction ls with
  | nil => intro s h; exact h
  | cons x rest ih =>
    intro s h
    rw [List.foldl_cons]
    refine ih _ ?_
    rw [update_stock_price]
    by_cases hx : x ∈ s.updated
    · rw [if_pos hx]; exact h
    · rw [if_neg hx]
      cases hg : g x with
      | some p => exact save_storeInv s.store x p t h
      | none => exact h

/-- Folding a duplicate-free symbol list none of whose symbols is already in
`updated_symbols` invokes the gateway fetch once for each, in order. -/
theorem fold_fetched (g : String → Option ℚ) (t : ℕ) :
    ∀ (ls : List String) (s : RunState), ls.Nodup → (∀ x ∈ ls, x ∉ s.updated) →
      (ls.foldl (update_stock_price g t) s).fetched = s.fetched ++ ls := by
  intro ls
  induction ls with
  | nil => intro s _ _; simp
  | cons x rest ih =>
    intro s hnd hupd
    rw [List.foldl_cons]
    have hx : x ∉ s.updated := hupd x (List.mem_cons_self _ _)
    have hstep : (update_stock_price g t s x).fetched = s.fetched ++ [x] := by
      rw [update_stock_price, if_neg hx]
      cases hg : g x with
      | some p => rfl
      | none => rfl
    have hrest : ∀ y ∈ rest, y ∉ (update_stock_price g t s x).updated := by
      intro y hy
      have hyx : y ≠ x := fun h => (List.nodup_cons.mp hnd).1 (h ▸ hy)
      exact step_updated_subset g t s x y hyx (hupd y (List.mem_cons_of_mem _ hy))
    rw [ih _ (List.nodup_cons.mp hnd).2 hrest, hstep]
    simp

/-- Claim C4: one run of the refresh job invokes the market-data gateway fetch
exactly once per distinct held symbol — the count of fetch invocations for a
symbol is 1 if any holding references it and 0 otherwise, regardless of how
many holdings or users reference it. -/
theorem refreshJob_fetch_once_per_symbol (g : String → Option ℚ) (t : ℕ)
    (symbols : List String) (store : List PriceRow) (sym : String) :
    (update_stock_prices g t symbols store).fetched.count sym
      = if sym ∈ symbols then 1 else 0 := by
  rw [update_stock_prices]
  rw [fold_fetched g t symbols.dedup ⟨store, [], []⟩ (List.nodup_dedup symbols)
    (fun x _ hx => by cases hx)]
  simp only [List.nil_append]
  by_cases hmem : sym ∈ symbols
  · rw [if_pos hmem]
    have hd : sym ∈ symbols.dedup := List.mem_dedup.mpr hmem
    have h1 : (symbols.dedup.count sym) ≤ 1 :=
      List.nodup_iff_count_le_one.mp (List.nodup_dedup symbols) sym
    have h2 : 1 ≤ symbols.dedup.count sym := List.count_pos_iff.mpr hd
    exact le_antisymm h1 h2
  · rw [if_neg hmem]
    exact List.count_eq_zero.mpr (fun hd => hmem (List.mem_dedup.mp hd))

/-- Witness for claim C4 at the spec's scenario: holdings AAPL, MSFT, AAPL
across users fetch AAPL once and MSFT once. -/
theorem refreshJob_fetch_once_per_symbol_witness :
    (update_stock_prices (fun _ => some 1) 0 ["AAPL", "MSFT", "AAPL"] []).fetched.count
        "AAPL" = 1 ∧
    (update_stock_prices (fun _ => some 1) 0 ["AAPL", "MSFT", "AAPL"] []).fetched.count
        "MSFT" = 1 := by
  constructor
  · rw [refreshJob_fetch_once_per_symbol (fun _ => some 1) 0 ["AAPL", "MSFT", "AAPL"] []
      "AAPL"]
    decide
  · rw [refreshJob_fetch_once_per_symbol (fun _ => some 1) 0 ["AAPL", "MSFT", "AAPL"] []
      "MSFT"]
    decide

/-- Claim C5: in a run where the gateway succeeds for some symbols and fails
for others, every successfully fetched held symbol ends up upserted in the
Price Store with its fetched price, and every failed symbol's rows are left
exactly as they were — the failure neither blocks other symbols nor aborts the
run (the run is a total function). -/
theorem refreshJob_partial_failure_isolated (g : String → Option ℚ) (t : ℕ)
    (symbols : List String) (store : List PriceRow) (sym : String)
    (hinv : storeInv store) (hmem : sym ∈ symbols) :
    (∀ p, g sym = some p →
      rowsFor (update_stock_prices g t symbols store).store sym = [⟨sym, p, t⟩]) ∧
    (g sym = none →
      rowsFor (update_stock_prices g t symbols store).store sym = rowsFor store sym) := by
  constructor
  · intro p hg
    rw [update_stock_prices]
    exact fold_rows_success g t sym p hg symbols.dedup ⟨store, [], []⟩
      (List.nodup_dedup symbols) (List.mem_dedup.mpr hmem) (fun h => by cases h)
      (hinv sym)
  · intro hg
    rw [update_stock_prices]
    exact fold_rows_unchanged g t sym symbols.dedup ⟨store, [], []⟩ (Or.inl hg)

/-- Witness for claim C5 at the spec's scenario: the gateway succeeds for AAPL
and fails for MSFT; AAPL's new price is persisted and MSFT stays absent. -/
theorem refreshJob_partial_failure_isolated_witness :
    rowsFor (update_stock_prices
        (fun s => if s = "AAPL" then some 150 else none) 9 ["AAPL", "MSFT"] []).store
      "AAPL" = [⟨"AAPL", 150, 9⟩] ∧
    rowsFor (update_stock_prices
        (fun s => if s = "AAPL" then some 150 else none) 9 ["AAPL", "MSFT"] []).store
      "MSFT" = rowsFor [] "MSFT" := by
  constructor
  · exact (refreshJob_partial_failure_isolated
      (fun s => if s = "AAPL" then some 150 else none) 9 ["AAPL", "MSFT"] [] "AAPL"
      (by decide) (by decide)).1 150 (by decide)
  · exact (refreshJob_partial_failure_isolated
      (fun s => if s = "AAPL" then some 150 else none) 9 ["AAPL", "MSFT"] [] "MSFT"
      (by decide) (by decide)).2 (by decide)

/-- Claim C7: running the refresh job twice in immediate succession against an
unchanged gateway leaves the Price Store observably unchanged — for every
symbol, the rows after the second run carry the same symbol and price as after
the first (only timestamps may differ), and no symbol ever has more than one
row. -/
theorem refreshJob_idempotent (g : String → Option ℚ) (t₁ t₂ : ℕ)
    (symbols : List String) (store : List PriceRow) (sym : String)
    (hinv : storeInv store) :
    ((rowsFor (update_stock_prices g t₂ symbols
          (update_stock_prices g t₁ symbols store).store).store sym).map
        (fun r => (r.symbol, r.price))
      = (rowsFor (update_stock_prices g t₁ symbols store).store sym).map
        (fun r => (r.symbol, r.price))) ∧
    (rowsFor (update_stock_prices g t₂ symbols
        (update_stock_prices g t₁ symbols store).store).store sym).length ≤ 1 := by
  have hinv₁ : storeInv (update_stock_prices g t₁ symbols store).store :=
    fold_storeInv g t₁ symbols.dedup ⟨store, [], []⟩ hinv
  have hinv₂ : storeInv (update_stock_prices g t₂ symbols
      (update_stock_prices g t₁ symbols store).store).store :=
    fold_storeInv g t₂ symbols.dedup _ hinv₁
  refine ⟨?_, hinv₂ sym⟩
  by_cases hmem : sym ∈ symbols
  · cases hg : g sym with
    | some p =>
      have h₁ : rowsFor (update_stock_prices g t₁ symbols store).store sym
          = [⟨sym, p, t₁⟩] := by
        rw [update_stock_prices]
        exact fold_rows_success g t₁ sym p hg symbols.dedup ⟨store, [], []⟩
          (List.nodup_dedup symbols) (List.mem_dedup.mpr hmem) (fun h => by cases h)
          (hinv sym)
      have h₂ : rowsFor (update_stock_prices g t₂ symbols
          (update_stock_prices g t₁ symbols store).store).store sym = [⟨sym, p, t₂⟩] := by
        rw [update_stock_prices]
        exact fold_rows_success g t₂ sym p hg symbols.dedup _
          (List.nodup_dedup symbols) (List.mem_dedup.mpr hmem) (fun h => by cases h)
          (hinv₁ sym)
      rw [h₁, h₂]
      rfl
    | none =>
      rw [show (update_stock_prices g t₂ symbols
          (update_stock_prices g t₁ symbols store).store).store
        = (symbols.dedup.foldl (update_stock_price g t₂)
            ⟨(update_stock_prices g t₁ symbols store).store, [], []⟩).store from rfl]
      rw [fold_rows_unchanged g t₂ sym symbols.dedup _ (Or.inl hg)]
  · rw [show (update_stock_prices g t₂ symbols
        (update_stock_prices g t₁ symbols store).store).store
      = (symbols.dedup.foldl (update_stock_price g t₂)
          ⟨(update_stock_prices g t₁ symbols store).store, [], []⟩).store from rfl]
    rw [fold_rows_unchanged g t₂ sym symbols.dedup _
      (Or.inr (fun h => hmem (List.mem_dedup.mp h)))]

/-- Witness for claim C7: two successive runs over the same gateway keep the
same symbol-price pairs in the store. -/
theorem refreshJob_idempotent_witness :
    ((rowsFor (update_stock_prices (fun _ => some 150) 2 ["AAPL"]
          (update_stock_prices (fun _ => some 150) 1 ["AAPL"] []).store).store
        "AAPL").map (fun r => (r.symbol, r.price))
      = (rowsFor (update_stock_prices (fun _ => some 150) 1 ["AAPL"] []).store
        "AAPL").map (fun r => (r.symbol, r.price))) ∧
    (rowsFor (update_stock_prices (fun _ => some 150) 2 ["AAPL"]
        (update_stock_prices (fun _ => some 150) 1 ["AAPL"] []).store).store
      "AAPL").length ≤ 1 :=
  refreshJob_idempotent (fun _ => some 150) 1 2 ["AAPL"] [] "AAPL" (by decide)

/-- The code's weighted-volatility list and the claim's term list have the
same sum: the only items the code keeps that the claim's wording drops are
those whose close series is non-empty but yields no daily return (fewer than
two closes), and their annualised standard deviation factor is zero, so the
extra terms vanish. -/
theorem weightedVols_sum_eq_claimTerms (g : String → List ℚ) (total : ℚ) :
    ∀ items : List JoinItem,
      (weightedVols g total items).sum = (claimVolTerms g total items).sum := by
  intro items
  induction items with
  | nil => rfl
  | cons it rest ih =>
    obtain ⟨st, pr⟩ := it
    cases pr with
    | none => simpa [weightedVols, claimVolTerms, List.filterMap_cons] using ih
    | some p =>
      by_cases hc : g st.symbol = []
      · have hpc : pctChange (g st.symbol) = [] := by rw [hc]; rfl
        simpa [weightedVols, claimVolTerms, List.filterMap_cons, hc, hpc] using ih
      · by_cases hpc : pctChange (g st.symbol) = []
        · have hstd : sampleStd ([] : List ℚ) = 0 := by
            rw [sampleStd]
            simp
          simpa [weightedVols, claimVolTerms, List.filterMap_cons, hc, hpc, annualVol,
            hstd] using ih
        · simpa [weightedVols, claimVolTerms, List.filterMap_cons, hc, hpc, annualVol]
            using ih

/-- Claim C3: the portfolio volatility is `0.0` on an empty item list, and
otherwise (whenever the total priced value is nonzero) equals the sum, over
exactly the holdings that have both a price and a non-empty daily-return
series, of `weight * (std of daily returns * sqrt 252)` with
`weight = quantity * price / total priced value`; holdings lacking a price or
a return series contribute no term.  (pandas would turn the
fewer-than-two-returns case into NaN; exact arithmetic idealises that standard
deviation to 0, under which the code's zero-filled term and the claim's
exclusion coincide.) -/
theorem volatility_value_weighted_sum (g : String → List ℚ) (items : List JoinItem) :
    (items = [] → calculate_portfolio_volatility g items = 0) ∧
    (totalPricedValue items ≠ 0 →
      calculate_portfolio_volatility g items
        = (claimVolTerms g (totalPricedValue items) items).sum) := by
  constructor
  · intro h
    rw [calculate_portfolio_volatility, if_pos h]
  · intro h
    have hi : items ≠ [] := by
      rintro rfl
      exact h rfl
    rw [calculate_portfolio_volatility, if_neg hi]
    simp only [if_neg h]
    by_cases hw : weightedVols g (totalPricedValue items) items = []
    · rw [if_pos hw]
      have hs := weightedVols_sum_eq_claimTerms g (totalPricedValue items) items
      rw [hw] at hs
      simpa using hs
    · rw [if_neg hw]
      exact weightedVols_sum_eq_claimTerms g (totalPricedValue items) items

/-- Witness for claim C3 at a priced holding whose history is unavailable:
both the code's value and the claim's sum are zero, with a nonzero total. -/
theorem volatility_value_weighted_sum_witness :
    calculate_portfolio_volatility (fun _ => []) [(⟨"AAPL", 1, 1⟩, some 1)]
      = (claimVolTerms (fun _ => [])
          (totalPricedValue [(⟨"AAPL", 1, 1⟩, some 1)]) [(⟨"AAPL", 1, 1⟩, some 1)]).sum :=
  (volatility_value_weighted_sum (fun _ => []) [(⟨"AAPL", 1, 1⟩, some 1)]).2
    (by norm_num [totalPricedValue, List.filterMap_cons])

/-- Claim C10: `calculate_portfolio_volatility` is a total function and its
guard clauses return `0.0` before the per-holding weight division is reached:
an empty item list, a list in which every price entry is missing, and more
generally any list whose total priced value is zero all yield `0.0`, so the
division by `total_value` is only evaluated when it is nonzero. -/
theorem volatility_guards_divide_safely (g : String → List ℚ) (items : List JoinItem) :
    (items = [] → calculate_portfolio_volatility g items = 0) ∧
    (totalPricedValue items = 0 → calculate_portfolio_volatility g items = 0) ∧
    ((∀ it ∈ items, it.2 = none) → calculate_portfolio_volatility g items = 0) := by
  have hz : totalPricedValue items = 0 → calculate_portfolio_volatility g items = 0 := by
    intro h
    rw [calculate_portfolio_volatility]
    by_cases hi : items = []
    · rw [if_pos hi]
    · rw [if_neg hi]
      simp only [if_pos h]
  refine ⟨?_, hz, ?_⟩
  · intro h
    rw [calculate_portfolio_volatility, if_pos h]
  · intro h
    refine hz ?_
    show portfolio_value_of items = 0
    exact portfolio_value_of_all_none items h

/-- Witness for claim C10: the empty portfolio and an all-unpriced portfolio
both give zero volatility through the guards. -/
theorem volatility_guards_divide_safely_witness :
    calculate_portfolio_volatility (fun _ => [1, 2]) ([] : List JoinItem) = 0 ∧
    calculate_portfolio_volatility (fun _ => [1, 2]) [(⟨"MSFT", 5, 2⟩, none)] = 0 :=
  ⟨(volatility_guards_divide_safely (fun _ => [1, 2]) []).1 rfl,
   (volatility_guards_divide_safely (fun _ => [1, 2]) [(⟨"MSFT", 5, 2⟩, none)]).2.2
     (by decide)⟩

/-- Claim C8: the code derives the misfire grace period as
`(stock_interval + stock_interval) // 2`, not as the average of the two
configured intervals; at the source's default configuration (60-second price
refresh, 3600-second history update) the code yields 60 where the claimed
average is 1830. -/
theorem misfireGraceTime_not_average :
    MISFIRE_GRACE_TIME_SECONDS 60 3600 = 60 ∧
    specMisfireGraceTime 60 3600 = 1830 ∧
    MISFIRE_GRACE_TIME_SECONDS 60 3600 ≠ specMisfireGraceTime 60 3600 := by
  refine ⟨rfl, rfl, ?_⟩
  decide

end Polifolio
